import Mathlib

/-!
Verification of the pydm distributed-make orchestration layer
(`dmpy/distributedmake.py`), shallowly embedded in Lean.

The builder (`DMBuilder`) accumulates rules and serializes them to
build-file text; the orchestrator (`DistributedMake`) holds a run
configuration, constructs the external tool's command line, and invokes
it as a subprocess.  File writes are modelled as the list of strings
passed to the file handle's write method, in order; the subprocess is an
oracle function from a command line to an exit status; filesystem effects
of `execute` are modelled as an event trace.
-/

/-- Scheduling backend selector (`SchedulingEngine` enum in the source). -/
inductive SchedulingEngine where
  | none
  | slurm
  deriving DecidableEq

/-- Modelled from the spec: `DMRule` lives in `dmpy/objects/dm_rule.py`,
which is not part of the sources given; §3 of the spec describes it as a
record of a target path, an ordered dependency list, and an ordered
recipe command list, matching the `rule.target` / `rule.deps` /
`rule.recipe` accesses in `distributedmake.py`. -/
structure DMRule where
  target : String
  deps : List String
  recipe : List String
  deriving DecidableEq

/-- The rule-graph builder: ordered rule collection, scheduler selector,
and the uniqueness set `_targets` (modelled as the list of recorded
targets; only membership is observed). -/
structure DMBuilder where
  rules : List DMRule := []
  scheduler : SchedulingEngine := SchedulingEngine.none
  targets : List String := []
  deriving DecidableEq

/-- `DMBuilder.add`: raising an exception is modelled by returning the
state at the time of the raise together with `some message`; a normal
return is `(newState, none)`.  The duplicate check happens before any
mutation, exactly as in the source. -/
def DMBuilder.add (b : DMBuilder) (target : String) (deps cmds : List String) :
    DMBuilder × Option String :=
  if target ∈ b.targets then
    (b, some ("Tried to add target twice: " ++ target))
  else
    ({ b with
        targets := b.targets ++ [target],
        rules := b.rules ++ [⟨target, deps, cmds⟩] }, Option.none)

/-- Python's `sep.join(xs)`. -/
def joinSep (sep : String) : List String → String
  | [] => ""
  | [x] => x
  | x :: y :: rest => x ++ sep ++ joinSep sep (y :: rest)

/-- The directory-creation guard command
`"@test -d {0} || mkdir -p {0}".format(dirname)`. -/
def guardCmd (dirname : String) : String :=
  "@test -d " ++ dirname ++ " || mkdir -p " ++ dirname

/-- The scheduler command token: `'srun '` for slurm, `''` otherwise. -/
def cmdPfx : SchedulingEngine → String
  | SchedulingEngine.slurm => "srun "
  | SchedulingEngine.none => ""

/-- One recipe line as written to the file: `"\t{}\n".format(cmd)`. -/
def tabLine (cmd : String) : String := "\t" ++ cmd ++ "\n"

/-- The body of the per-rule loop in `write_to_filehandle`: the chunks
written for one rule, and the rule after its in-place recipe mutation
(scheduler token prepended to each command, then the directory guard
inserted at position 0).  `absDirname` stands for
`os.path.abspath(os.path.dirname(·))`, an environment function. -/
def writeRule (absDirname : String → String) (sched : SchedulingEngine)
    (r : DMRule) : List String × DMRule :=
  let d := absDirname r.target
  let newRecipe := guardCmd d :: r.recipe.map (fun c => cmdPfx sched ++ c)
  ((r.target ++ ": " ++ joinSep " " r.deps ++ "\n") :: newRecipe.map tabLine,
   { r with recipe := newRecipe })

/-- The per-rule loop over the whole rule list. -/
def writeRules (absDirname : String → String) (sched : SchedulingEngine) :
    List DMRule → List String × List DMRule
  | [] => ([], [])
  | r :: rs =>
    let p := writeRule absDirname sched r
    let q := writeRules absDirname sched rs
    (p.1 ++ q.1, p.2 :: q.2)

/-- `DMBuilder.write_to_filehandle`: returns the ordered chunks written
to the file handle and the builder after the loop's in-place rule
mutations. -/
def DMBuilder.write_to_filehandle (b : DMBuilder) (absDirname : String → String) :
    List String × DMBuilder :=
  let p := writeRules absDirname b.scheduler b.rules
  ("SHELL := /bin/bash\n" :: p.1
      ++ ["all: " ++ joinSep " " (p.2.map DMRule.target) ++ "\n",
          ".DELETE_ON_ERROR:\n"],
   { b with rules := p.2 })

/-- The full build-file text: the concatenation of all written chunks. -/
def outputText (chunks : List String) : String := joinSep "" chunks

/-- Iterated `add` from a list of `(target, deps, cmds)` requests,
stopping at the first raised exception. -/
def buildAll (b : DMBuilder) :
    List (String × List String × List String) → DMBuilder × Option String
  | [] => (b, Option.none)
  | x :: rest =>
    match b.add x.1 x.2.1 x.2.2 with
    | (b1, Option.none) => buildAll b1 rest
    | (b1, some e) => (b1, some e)

/-- An external parsed-arguments object, duck-typed: `some` models field
presence, `Option.none` absence; `extra` holds unrecognized fields. -/
structure ArgsObject where
  run : Option Bool := Option.none
  no_cleanup : Option Bool := Option.none
  jobs : Option Int := Option.none
  scheduler : Option String := Option.none
  extra : List (String × String) := []
  deriving DecidableEq

/-- The orchestrator's configuration record with its attrs defaults.
`question`, `touch` and `debug` are string-valued with `""` standing for
the falsy default `False`. -/
structure DistributedMake where
  run : Bool := false
  keep_going : Bool := false
  jobs : Int := 1
  no_cleanup : Bool := false
  question : String := ""
  touch : String := ""
  debug : String := ""
  args_object : Option ArgsObject := Option.none
  dm_builder : DMBuilder := {}
  deriving DecidableEq

/-- Python's `SchedulingEngine[name]` lookup by member name;
`Option.none` models the `KeyError` case. -/
def schedulingEngineOfName : String → Option SchedulingEngine
  | "none" => some SchedulingEngine.none
  | "slurm" => some SchedulingEngine.slurm
  | _ => Option.none

/-- `_handle_args_object`: copies the recognized fields `run`,
`no_cleanup`, `jobs` when present, then sets the builder's scheduler by
enum-member name when a `scheduler` field is present.  A `KeyError` from
the name lookup is modelled as `some message`. -/
def DistributedMake.handle_args_object (m : DistributedMake) :
    DistributedMake × Option String :=
  match m.args_object with
  | Option.none => (m, Option.none)
  | some a =>
    let m1 := match a.run with
      | some v => { m with run := v }
      | Option.none => m
    let m2 := match a.no_cleanup with
      | some v => { m1 with no_cleanup := v }
      | Option.none => m1
    let m3 := match a.jobs with
      | some v => { m2 with jobs := v }
      | Option.none => m2
    match a.scheduler with
    | Option.none => (m3, Option.none)
    | some name =>
      match schedulingEngineOfName name with
      | some e => ({ m3 with dm_builder := { m3.dm_builder with scheduler := e } },
                   Option.none)
      | Option.none => (m3, some ("KeyError: " ++ name))

/-- Construction of a `DistributedMake` from defaults plus an optional
arguments object, including the `__attrs_post_init__` hook. -/
def DistributedMake.init (args : Option ArgsObject) :
    DistributedMake × Option String :=
  DistributedMake.handle_args_object { args_object := args }

/-- `build_make_command`: the `make` invocation as the list of appended
pieces. -/
def DistributedMake.build_make_command (m : DistributedMake)
    (makefile_name : String) : List String :=
  ["make"]
    ++ (if m.run then [] else ["-n"])
    ++ (if m.keep_going then ["-k"] else [])
    ++ (if m.question ≠ "" then ["-q " ++ m.question] else [])
    ++ (if m.touch ≠ "" then ["-t " ++ m.touch] else [])
    ++ (if m.debug ≠ "" then ["-d " ++ m.debug] else [])
    ++ ["-j " ++ toString m.jobs, "-f " ++ makefile_name, "all"]

/-- Filesystem/process events performed by `execute`, in order. -/
inductive FsEvent where
  | createTemp (name : String)
  | writeChunks (name : String) (chunks : List String)
  | runCmd (cmd : String) (code : Int)
  | removeTemp (name : String)
  deriving DecidableEq

/-- The observable outcome of `execute`: the returned exit status and
the ordered event trace. -/
structure ExecResult where
  return_code : Int
  trace : List FsEvent
  deriving DecidableEq

/-- `execute`: opens a named temporary file (removed on close exactly
when `delete = not no_cleanup`), serializes the graph into it, runs the
joined command line through the shell oracle `call`, and returns the
exit status verbatim.  The second component is the orchestrator after
the builder's in-place mutation. -/
def DistributedMake.execute (m : DistributedMake) (absDirname : String → String)
    (tmpName : String) (call : String → Int) : ExecResult × DistributedMake :=
  let p := m.dm_builder.write_to_filehandle absDirname
  let cmdStr := joinSep " " (m.build_make_command tmpName)
  let rc := call cmdStr
  ({ return_code := rc,
     trace := [FsEvent.createTemp tmpName, FsEvent.writeChunks tmpName p.1,
               FsEvent.runCmd cmdStr rc]
        ++ (if m.no_cleanup then [] else [FsEvent.removeTemp tmpName]) },
   { m with dm_builder := p.2 })

/-! ## Re-parser for the emitted build-file text

The spec's round-trip property re-parses the emitted text.  The text is
emitted as a sequence of newline-terminated lines (one chunk per write
call); the parser below consumes those lines: a line is a recipe line of
the preceding header iff it starts with the tab marker, and a header
line `target: deps` splits at the first colon, its dependency field
splitting on single spaces.  The parser returns, per header in order,
the target, the dependency list and the number of attached recipe
lines. -/

/-- Split a character list on a separator character. -/
def splitOnChar (sep : Char) : List Char → List (List Char)
  | [] => [[]]
  | c :: cs =>
    match splitOnChar sep cs with
    | [] => [[c]]
    | g :: gs => if c = sep then [] :: g :: gs else (c :: g) :: gs

/-- Parse a space-joined dependency field. -/
def splitDeps (ds : List Char) : List String :=
  if ds.isEmpty then [] else (splitOnChar ' ' ds).map String.mk

/-- Parse a header line (without its trailing newline) into target and
dependency list, splitting at the first colon. -/
def headerOfLine (cs : List Char) : Option (String × List String) :=
  match cs.dropWhile (fun c => c ≠ ':') with
  | ':' :: ' ' :: ds =>
    some (String.mk (cs.takeWhile (fun c => c ≠ ':')), splitDeps ds)
  | _ => Option.none

/-- Increment the recipe-line count of the most recent header. -/
def bumpLast : List (String × List String × Nat) → List (String × List String × Nat)
  | [] => []
  | [(t, ds, n)] => [(t, ds, n + 1)]
  | x :: y :: rest => x :: bumpLast (y :: rest)

/-- Consume one emitted line (chunk, with trailing newline). -/
def parseStep (acc : List (String × List String × Nat)) (chunk : String) :
    List (String × List String × Nat) :=
  if chunk.data.head? = some '\t' then bumpLast acc
  else
    match headerOfLine chunk.data.dropLast with
    | some (t, ds) => acc ++ [(t, ds, 0)]
    | Option.none => acc

/-- Re-parse the emitted build-file lines. -/
def parseMakefile (chunks : List String) : List (String × List String × Nat) :=
  chunks.foldl parseStep []

/-- The second character of a string, used to tell the `make` flag
tokens apart. -/
def char2 (s : String) : Option Char :=
  match s.data with
  | _ :: c :: _ => some c
  | _ => Option.none

/-! ## Basic string and list facts -/

theorem String.mk_data (s : String) : String.mk s.data = s := rfl

theorem String.data_ne_nil {s : String} (h : s ≠ "") : s.data ≠ [] := by
  cases s with
  | mk l =>
    intro hl
    have hl2 : l = [] := hl
    subst hl2
    exact h rfl

theorem joinSep_cons_cons (sep x y : String) (rest : List String) :
    joinSep sep (x :: y :: rest) = x ++ sep ++ joinSep sep (y :: rest) := rfl

theorem joinSep_data_ne_nil {d : String} (rest : List String) (h : d ≠ "") :
    (joinSep " " (d :: rest)).data ≠ [] := by
  cases rest with
  | nil => exact String.data_ne_nil h
  | cons y ys =>
    rw [joinSep_cons_cons]
    simp only [String.data_append]
    intro hx
    exact String.data_ne_nil h (List.append_eq_nil.mp (List.append_eq_nil.mp hx).1).1

theorem splitOnChar_ne_nil (sep : Char) (l : List Char) : splitOnChar sep l ≠ [] := by
  induction l with
  | nil => simp [splitOnChar]
  | cons c cs ih =>
    rw [splitOnChar]
    cases h : splitOnChar sep cs with
    | nil => simp
    | cons g gs =>
      by_cases hc : c = sep <;> simp [hc]

theorem splitOnChar_of_not_mem {sep : Char} {l : List Char} (h : sep ∉ l) :
    splitOnChar sep l = [l] := by
  induction l with
  | nil => rfl
  | cons c cs ih =>
    rw [splitOnChar, ih (fun hm => h (List.mem_cons_of_mem c hm))]
    simp only [if_neg (fun hc : c = sep => h (hc ▸ List.mem_cons_self c cs))]

theorem splitOnChar_append {sep : Char} {l : List Char} (rest : List Char)
    (h : sep ∉ l) :
    splitOnChar sep (l ++ sep :: rest) = l :: splitOnChar sep rest := by
  induction l with
  | nil =>
    rw [List.nil_append, splitOnChar]
    cases hr : splitOnChar sep rest with
    | nil => exact absurd hr (splitOnChar_ne_nil sep rest)
    | cons g gs => simp
  | cons c cs ih =>
    rw [List.cons_append, splitOnChar,
      ih (fun hm => h (List.mem_cons_of_mem c hm))]
    simp only [if_neg (fun hc : c = sep => h (hc ▸ List.mem_cons_self c cs))]

/-! ## Correctness of the dependency-field and header re-parsers -/

theorem splitDeps_joinSep (deps : List String)
    (h : ∀ d ∈ deps, d ≠ "" ∧ ' ' ∉ d.data) :
    splitDeps (joinSep " " deps).data = deps := by
  induction deps with
  | nil => rfl
  | cons d rest ih =>
    obtain ⟨hd0, hdsp⟩ := h d (List.mem_cons_self d rest)
    cases rest with
    | nil =>
      rw [joinSep, splitDeps, if_neg (by simpa using String.data_ne_nil hd0),
        splitOnChar_of_not_mem hdsp]
      simp [String.mk_data]
    | cons d2 rest2 =>
      obtain ⟨hd20, _⟩ := h d2 (List.mem_cons_of_mem d (List.mem_cons_self d2 rest2))
      have hdata : (joinSep " " (d :: d2 :: rest2)).data
          = d.data ++ ' ' :: (joinSep " " (d2 :: rest2)).data := by
        rw [joinSep_cons_cons]
        simp [String.data_append]
      have hne : (joinSep " " (d :: d2 :: rest2)).data ≠ [] :=
        joinSep_data_ne_nil (d2 :: rest2) hd0
      rw [splitDeps, if_neg (by simpa using hne), hdata,
        splitOnChar_append _ hdsp]
      have ihr := ih (fun x hx => h x (List.mem_cons_of_mem d hx))
      have hner : (joinSep " " (d2 :: rest2)).data ≠ [] :=
        joinSep_data_ne_nil rest2 hd20
      rw [splitDeps, if_neg (by simpa using hner)] at ihr
      simp [String.mk_data, ihr]

theorem headerOfLine_correct (t D : String) (ht : ∀ c ∈ t.data, c ≠ ':') :
    headerOfLine ((t ++ ": " ++ D).data) = some (t, splitDeps D.data) := by
  have hdata : (t ++ ": " ++ D).data = t.data ++ ':' :: ' ' :: D.data := by
    simp [String.data_append]
  have hpos : ∀ c ∈ t.data, (fun c => decide (c ≠ ':')) c = true := by
    intro c hc
    simpa using ht c hc
  rw [hdata, headerOfLine, List.dropWhile_append_of_pos hpos,
    List.takeWhile_append_of_pos hpos]
  have hdrop : List.dropWhile (fun c => decide (c ≠ ':')) (':' :: ' ' :: D.data)
      = ':' :: ' ' :: D.data := by
    rw [List.dropWhile_cons]
    simp
  have htake : List.takeWhile (fun c => decide (c ≠ ':')) (':' :: ' ' :: D.data)
      = [] := by
    rw [List.takeWhile_cons]
    simp
  rw [hdrop, htake, List.append_nil]
  simp [String.mk_data]

/-! ## Behaviour of the line parser on each kind of emitted line -/

theorem bumpLast_append (t : String) (ds : List String) (n : Nat) :
    ∀ acc : List (String × List String × Nat),
      bumpLast (acc ++ [(t, ds, n)]) = acc ++ [(t, ds, n + 1)] := by
  intro acc
  induction acc with
  | nil => rfl
  | cons x rest ih =>
    cases rest with
    | nil => rfl
    | cons y rest2 =>
      show x :: bumpLast ((y :: rest2) ++ [(t, ds, n)]) = _
      rw [ih]
      rfl

theorem parseStep_tab (acc : List (String × List String × Nat)) (c : String) :
    parseStep acc (tabLine c) = bumpLast acc := by
  have hdata : (tabLine c).data = '\t' :: (c.data ++ ['\n']) := by
    simp [tabLine, String.data_append]
  rw [parseStep, hdata]
  simp

theorem parseStep_header (acc : List (String × List String × Nat))
    (t D : String) (ht0 : t ≠ "") (ht : ∀ c ∈ t.data, c ≠ ':' ∧ c ≠ '\t') :
    parseStep acc (t ++ ": " ++ D ++ "\n") = acc ++ [(t, splitDeps D.data, 0)] := by
  have hdata : (t ++ ": " ++ D ++ "\n").data = (t ++ ": " ++ D).data ++ ['\n'] := by
    simp [String.data_append]
  obtain ⟨c0, crest, hc⟩ : ∃ c0 crest, t.data = c0 :: crest := by
    cases hcd : t.data with
    | nil => exact absurd hcd (String.data_ne_nil ht0)
    | cons a l => exact ⟨a, l, rfl⟩
  have hhead : (t ++ ": " ++ D ++ "\n").data.head? = some c0 := by
    rw [hdata]
    simp [String.data_append, hc]
  have hc0 : c0 ≠ '\t' := (ht c0 (by simp [hc])).2
  rw [parseStep, hhead]
  rw [if_neg (by simpa using hc0), hdata, List.dropLast_concat,
    headerOfLine_correct t D (fun c hcm => (ht c hcm).1)]

theorem parseStep_shell (acc : List (String × List String × Nat)) :
    parseStep acc "SHELL := /bin/bash\n" = acc := by
  rw [parseStep, if_neg (by decide),
    show headerOfLine ("SHELL := /bin/bash\n".data.dropLast) = Option.none from by decide]

theorem parseStep_delete (acc : List (String × List String × Nat)) :
    parseStep acc ".DELETE_ON_ERROR:\n" = acc := by
  rw [parseStep, if_neg (by decide),
    show headerOfLine (".DELETE_ON_ERROR:\n".data.dropLast) = Option.none from by decide]

theorem foldl_parseStep_tabs (cmds : List String) :
    ∀ (acc : List (String × List String × Nat)) (t : String) (ds : List String) (n : Nat),
      List.foldl parseStep (acc ++ [(t, ds, n)]) (cmds.map tabLine)
        = acc ++ [(t, ds, n + cmds.length)] := by
  induction cmds with
  | nil => intro acc t ds n; simp
  | cons c cs ih =>
    intro acc t ds n
    rw [List.map_cons, List.foldl_cons, parseStep_tab, bumpLast_append, ih]
    simp only [List.length_cons]
    rw [Nat.add_comm cs.length 1, ← Nat.add_assoc]

/-! ## Parsing the chunks of a serialized rule block -/

theorem foldl_parseStep_writeRule (absDirname : String → String)
    (sched : SchedulingEngine) (r : DMRule)
    (acc : List (String × List String × Nat))
    (ht0 : r.target ≠ "") (ht : ∀ c ∈ r.target.data, c ≠ ':' ∧ c ≠ '\t') :
    List.foldl parseStep acc (writeRule absDirname sched r).1
      = acc ++ [(r.target, splitDeps (joinSep " " r.deps).data, r.recipe.length + 1)] := by
  show List.foldl parseStep acc
      ((r.target ++ ": " ++ joinSep " " r.deps ++ "\n")
        :: (guardCmd (absDirname r.target)
              :: r.recipe.map (fun c => cmdPfx sched ++ c)).map tabLine) = _
  rw [List.foldl_cons, parseStep_header acc _ _ ht0 ht, foldl_parseStep_tabs]
  simp [Nat.add_comm]

theorem foldl_parseStep_writeRules (absDirname : String → String)
    (sched : SchedulingEngine) (rules : List DMRule) :
    ∀ acc : List (String × List String × Nat),
      (∀ r ∈ rules, r.target ≠ "" ∧ ∀ c ∈ r.target.data, c ≠ ':' ∧ c ≠ '\t') →
      List.foldl parseStep acc (writeRules absDirname sched rules).1
        = acc ++ rules.map (fun r =>
            (r.target, splitDeps (joinSep " " r.deps).data, r.recipe.length + 1)) := by
  induction rules with
  | nil => intro acc h; simp [writeRules]
  | cons r rs ih =>
    intro acc h
    obtain ⟨hr0, hrc⟩ := h r (List.mem_cons_self r rs)
    show List.foldl parseStep acc
        ((writeRule absDirname sched r).1 ++ (writeRules absDirname sched rs).1) = _
    rw [List.foldl_append, foldl_parseStep_writeRule absDirname sched r acc hr0 hrc,
      ih _ (fun x hx => h x (List.mem_cons_of_mem r hx))]
    simp

/-! ## Structure of the serializer's state mutation -/

theorem writeRules_snd (absDirname : String → String) (sched : SchedulingEngine)
    (rules : List DMRule) :
    (writeRules absDirname sched rules).2 = rules.map (fun r =>
      { r with recipe := guardCmd (absDirname r.target)
          :: r.recipe.map (fun c => cmdPfx sched ++ c) }) := by
  induction rules with
  | nil => rfl
  | cons r rs ih =>
    show (writeRule absDirname sched r).2 :: (writeRules absDirname sched rs).2 = _
    rw [ih]
    rfl

theorem writeRules_snd_targets (absDirname : String → String)
    (sched : SchedulingEngine) (rules : List DMRule) :
    (writeRules absDirname sched rules).2.map DMRule.target
      = rules.map DMRule.target := by
  rw [writeRules_snd, List.map_map]
  rfl

theorem write_to_filehandle_fst (b : DMBuilder) (absDirname : String → String) :
    (b.write_to_filehandle absDirname).1
      = "SHELL := /bin/bash\n" :: (writeRules absDirname b.scheduler b.rules).1
          ++ ["all: " ++ joinSep " " (b.rules.map DMRule.target) ++ "\n",
              ".DELETE_ON_ERROR:\n"] := by
  show "SHELL := /bin/bash\n" :: (writeRules absDirname b.scheduler b.rules).1
      ++ ["all: " ++ joinSep " "
            ((writeRules absDirname b.scheduler b.rules).2.map DMRule.target) ++ "\n",
          ".DELETE_ON_ERROR:\n"] = _
  rw [writeRules_snd_targets]

theorem write_to_filehandle_snd (b : DMBuilder) (absDirname : String → String) :
    (b.write_to_filehandle absDirname).2
      = { b with rules := b.rules.map (fun r =>
            { r with recipe := guardCmd (absDirname r.target)
                :: r.recipe.map (fun c => cmdPfx b.scheduler ++ c) }) } := by
  show { b with rules := (writeRules absDirname b.scheduler b.rules).2 } = _
  rw [writeRules_snd]

/-! ## Characterization of a successful sequence of `add` calls -/

theorem buildAll_ok (rs : List (String × List String × List String)) :
    ∀ b0 b : DMBuilder, buildAll b0 rs = (b, Option.none) →
      b = { rules := b0.rules ++ rs.map (fun x => ⟨x.1, x.2.1, x.2.2⟩),
            scheduler := b0.scheduler,
            targets := b0.targets ++ rs.map (fun x => x.1) } := by
  induction rs with
  | nil =>
    intro b0 b h
    have hb : b0 = b := congrArg Prod.fst h
    subst hb
    simp
  | cons x rest ih =>
    intro b0 b h
    by_cases hx : x.1 ∈ b0.targets
    · rw [buildAll, DMBuilder.add, if_pos hx] at h
      exact absurd (congrArg Prod.snd h) (by simp)
    · rw [buildAll, DMBuilder.add, if_neg hx] at h
      have := ih _ b h
      rw [this]
      simp

/-! ## Claim theorems -/

/-- C1: for every sequence of `add` calls with pairwise-distinct targets
(a successful `buildAll` run), serializing the graph emits one block per
rule in insertion order — a `target: dependencies` header followed by
the recipe commands one per tab-indented line with exactly one extra
directory-guard command at the front — so that re-parsing the emitted
lines recovers the targets in insertion order, each target's ordered
dependency list, and each target's original recipe command count plus
one, followed only by the synthetic `all` goal listing every target.
The string hypotheses say the targets and dependencies are sane path
fragments (nonempty, no colon, space, tab or newline) and that no
emitted line hides an embedded newline. -/
theorem add_serialize_reparse_roundtrip
    (absDirname : String → String) (sched : SchedulingEngine)
    (rs : List (String × List String × List String)) (b : DMBuilder)
    (hb : buildAll { rules := [], scheduler := sched, targets := [] } rs
            = (b, Option.none))
    (ht : ∀ x ∈ rs, x.1 ≠ "" ∧ ∀ c ∈ x.1.data,
            c ≠ ':' ∧ c ≠ ' ' ∧ c ≠ '\t' ∧ c ≠ '\n')
    (hd : ∀ x ∈ rs, ∀ d ∈ x.2.1, d ≠ "" ∧ ∀ c ∈ d.data, c ≠ ' ' ∧ c ≠ '\n')
    (hc : ∀ x ∈ rs, ∀ cmd ∈ x.2.2, '\n' ∉ cmd.data)
    (habs : ∀ s, '\n' ∉ (absDirname s).data) :
    parseMakefile (b.write_to_filehandle absDirname).1
      = rs.map (fun x => (x.1, x.2.1, x.2.2.length + 1))
        ++ [("all", rs.map (fun x => x.1), 0)] := by
  have hbeq := buildAll_ok rs _ b hb
  subst hbeq
  rw [parseMakefile, write_to_filehandle_fst]
  simp only [List.nil_append]
  have hinner : List.foldl parseStep []
      ("SHELL := /bin/bash\n"
        :: (writeRules absDirname sched
              (rs.map (fun x => (⟨x.1, x.2.1, x.2.2⟩ : DMRule)))).1)
      = rs.map (fun x => (x.1, splitDeps (joinSep " " x.2.1).data,
          x.2.2.length + 1)) := by
    rw [List.foldl_cons, parseStep_shell,
      foldl_parseStep_writeRules absDirname sched _ []
        (by
          intro r hr
          obtain ⟨x, hx, hxr⟩ := List.mem_map.mp hr
          subst hxr
          obtain ⟨hx0, hxc⟩ := ht x hx
          exact ⟨hx0, fun c hcm => ⟨(hxc c hcm).1, (hxc c hcm).2.2.1⟩⟩),
      List.nil_append, List.map_map]
    rfl
  rw [List.foldl_append, hinner]
  simp only [List.foldl_cons, List.foldl_nil]
  have hall : ("all: " ++ joinSep " "
        ((rs.map (fun x => (⟨x.1, x.2.1, x.2.2⟩ : DMRule))).map DMRule.target) ++ "\n")
      = "all" ++ ": " ++ joinSep " " (rs.map (fun x => x.1)) ++ "\n" := by
    rw [List.map_map]
    rfl
  rw [hall, parseStep_header _ "all" _ (by decide) (by decide), parseStep_delete]
  have hsplitall : splitDeps (joinSep " " (rs.map (fun x => x.1))).data
      = rs.map (fun x => x.1) := by
    apply splitDeps_joinSep
    intro d hdm
    obtain ⟨x, hx, hxd⟩ := List.mem_map.mp hdm
    subst hxd
    obtain ⟨hx0, hxc⟩ := ht x hx
    exact ⟨hx0, fun hsp => (hxc ' ' hsp).2.1 rfl⟩
  rw [hsplitall]
  congr 1
  apply List.map_congr_left
  intro x hx
  have hdeps : splitDeps (joinSep " " x.2.1).data = x.2.1 := by
    apply splitDeps_joinSep
    intro d hdm
    obtain ⟨hd0, hdc⟩ := hd x hx d hdm
    exact ⟨hd0, fun hsp => (hdc ' ' hsp).1 rfl⟩
  rw [hdeps]

/-- Witness for C1 at the spec's end-to-end example rule. -/
theorem add_serialize_reparse_roundtrip_witness :
    parseMakefile
        (DMBuilder.write_to_filehandle
          { rules := [⟨"out/a.txt", ["in/a.txt"], ["cp in/a.txt out/a.txt"]⟩],
            scheduler := SchedulingEngine.slurm,
            targets := ["out/a.txt"] }
          (fun _ => "/abs/out")).1
      = [("out/a.txt", ["in/a.txt"], 2), ("all", ["out/a.txt"], 0)] :=
  add_serialize_reparse_roundtrip (fun _ => "/abs/out") SchedulingEngine.slurm
    [("out/a.txt", ["in/a.txt"], ["cp in/a.txt out/a.txt"])]
    { rules := [⟨"out/a.txt", ["in/a.txt"], ["cp in/a.txt out/a.txt"]⟩],
      scheduler := SchedulingEngine.slurm,
      targets := ["out/a.txt"] }
    (by decide) (by decide) (by decide) (by decide)
    (by intro s; show '\n' ∉ ("/abs/out" : String).data; decide)

/-- C3: adding a target that is already present fails with the
duplicate-target exception and leaves the graph — rule collection,
scheduler and uniqueness set — exactly as it was: the returned state is
the unchanged builder. -/
theorem add_duplicate_target_fails_unchanged (b : DMBuilder) (t : String)
    (deps cmds : List String) (h : t ∈ b.targets) :
    b.add t deps cmds = (b, some ("Tried to add target twice: " ++ t)) := by
  rw [DMBuilder.add, if_pos h]

/-- Witness for C3. -/
theorem add_duplicate_target_fails_unchanged_witness :
    DMBuilder.add
        { rules := [⟨"a", [], []⟩], scheduler := SchedulingEngine.none,
          targets := ["a"] } "a" ["x"] ["y"]
      = ({ rules := [⟨"a", [], []⟩], scheduler := SchedulingEngine.none,
           targets := ["a"] },
         some "Tried to add target twice: a") :=
  add_duplicate_target_fails_unchanged
    { rules := [⟨"a", [], []⟩], scheduler := SchedulingEngine.none,
      targets := ["a"] } "a" ["x"] ["y"] (by decide)

/-- C8: serializing a graph with zero rules emits exactly the
shell-selection directive, an `all:` line with no dependencies, and the
delete-on-error directive — no rule blocks — and re-parsing that output
yields the single dependency-free `all` goal. -/
theorem serialize_empty_graph (absDirname : String → String)
    (sched : SchedulingEngine) (targets : List String) :
    (DMBuilder.write_to_filehandle
        { rules := [], scheduler := sched, targets := targets } absDirname).1
      = ["SHELL := /bin/bash\n", "all: \n", ".DELETE_ON_ERROR:\n"] ∧
    parseMakefile ["SHELL := /bin/bash\n", "all: \n", ".DELETE_ON_ERROR:\n"]
      = [("all", [], 0)] := by
  constructor
  · rfl
  · decide

/-- C9: one serialization call maps each rule to a rule with the same
target and the same dependencies, replacing only its recipe with the
directory-guard command followed by the original commands each carrying
the scheduler prefix; the scheduler and the uniqueness set are
untouched. -/
theorem serialize_mutates_only_recipes (b : DMBuilder)
    (absDirname : String → String) :
    (b.write_to_filehandle absDirname).2
      = { rules := b.rules.map (fun r =>
            ⟨r.target, r.deps,
             guardCmd (absDirname r.target)
               :: r.recipe.map (fun c => cmdPfx b.scheduler ++ c)⟩),
          scheduler := b.scheduler,
          targets := b.targets } := by
  rw [write_to_filehandle_snd]

/-- C5: `execute` returns the spawned child process's exit status
verbatim — whatever status the shell oracle reports for the single
constructed command line is the value `execute` returns, uninterpreted,
for every graph and configuration. -/
theorem execute_returns_exit_status_verbatim (m : DistributedMake)
    (absDirname : String → String) (tmpName : String) (call : String → Int) :
    (m.execute absDirname tmpName call).1.return_code
      = call (joinSep " " (m.build_make_command tmpName)) := rfl

/-- C6: with `no_cleanup` unset the transient build-file is removed
after the subprocess returns — the removal event follows the run event
in the trace, whatever exit status the oracle reports; with `no_cleanup`
set, no removal event occurs and the file remains after `execute`
returns. -/
theorem execute_cleanup_policy (m : DistributedMake)
    (absDirname : String → String) (tmpName : String) (call : String → Int) :
    (m.no_cleanup = false →
      (m.execute absDirname tmpName call).1.trace
        = [FsEvent.createTemp tmpName,
           FsEvent.writeChunks tmpName
             (m.dm_builder.write_to_filehandle absDirname).1,
           FsEvent.runCmd (joinSep " " (m.build_make_command tmpName))
             (call (joinSep " " (m.build_make_command tmpName))),
           FsEvent.removeTemp tmpName]) ∧
    (m.no_cleanup = true →
      (m.execute absDirname tmpName call).1.trace
        = [FsEvent.createTemp tmpName,
           FsEvent.writeChunks tmpName
             (m.dm_builder.write_to_filehandle absDirname).1,
           FsEvent.runCmd (joinSep " " (m.build_make_command tmpName))
             (call (joinSep " " (m.build_make_command tmpName)))] ∧
      FsEvent.removeTemp tmpName ∉ (m.execute absDirname tmpName call).1.trace) := by
  constructor
  · intro h
    show [FsEvent.createTemp tmpName, _, _]
        ++ (if m.no_cleanup then [] else [FsEvent.removeTemp tmpName]) = _
    rw [h]
    rfl
  · intro h
    constructor
    · show [FsEvent.createTemp tmpName, _, _]
          ++ (if m.no_cleanup then [] else [FsEvent.removeTemp tmpName]) = _
      rw [h]
      rfl
    · show FsEvent.removeTemp tmpName ∉
          [FsEvent.createTemp tmpName, _, _]
            ++ (if m.no_cleanup then [] else [FsEvent.removeTemp tmpName])
      rw [h]
      simp

/-- Witness for C6 at concrete configurations with each cleanup
setting. -/
theorem execute_cleanup_policy_witness :
    (({ no_cleanup := false } : DistributedMake).execute
          (fun _ => "/abs") "/tmp/mf" (fun _ => 2)).1.trace
        = [FsEvent.createTemp "/tmp/mf",
           FsEvent.writeChunks "/tmp/mf"
             ["SHELL := /bin/bash\n", "all: \n", ".DELETE_ON_ERROR:\n"],
           FsEvent.runCmd "make -n -j 1 -f /tmp/mf all" 2,
           FsEvent.removeTemp "/tmp/mf"] ∧
      FsEvent.removeTemp "/tmp/mf" ∉
        (({ no_cleanup := true } : DistributedMake).execute
          (fun _ => "/abs") "/tmp/mf" (fun _ => 2)).1.trace := by
  constructor
  · exact (execute_cleanup_policy { no_cleanup := false }
      (fun _ => "/abs") "/tmp/mf" (fun _ => 2)).1 rfl
  · exact ((execute_cleanup_policy { no_cleanup := true }
      (fun _ => "/abs") "/tmp/mf" (fun _ => 2)).2 rfl).2

/-- C4: under the cluster backend every serialized recipe command except
the leading directory-guard command carries the cluster-dispatch token
as a prefix and the guard command does not; under the `none` backend the
serializer prefixes nothing — each rule's emitted commands are exactly
the guard followed by the original commands unchanged. -/
theorem scheduler_dispatch_token_policy (b : DMBuilder)
    (absDirname : String → String) :
    (b.scheduler = SchedulingEngine.slurm →
      ∀ r ∈ (b.write_to_filehandle absDirname).2.rules,
        (∀ c ∈ r.recipe.tail, ∃ c0, c = "srun " ++ c0) ∧
        (∀ g, r.recipe.head? = some g → ¬ ∃ c0, g = "srun " ++ c0)) ∧
    (b.scheduler = SchedulingEngine.none →
      (b.write_to_filehandle absDirname).2.rules
        = b.rules.map (fun r =>
            ⟨r.target, r.deps, guardCmd (absDirname r.target) :: r.recipe⟩)) := by
  constructor
  · intro hs r hr
    rw [write_to_filehandle_snd] at hr
    obtain ⟨r0, _, hr0⟩ := List.mem_map.mp hr
    subst hr0
    constructor
    · intro c hcm
      obtain ⟨c0, _, hc0⟩ := List.mem_map.mp hcm
      exact ⟨c0, by rw [← hc0, hs]; rfl⟩
    · intro g hg hex
      obtain ⟨c0, hc0⟩ := hex
      have hgg : g = guardCmd (absDirname r0.target) :=
        (Option.some.injEq _ _).mp hg.symm
      rw [hgg] at hc0
      have hdata := congrArg String.data hc0
      rw [guardCmd] at hdata
      simp only [String.data_append] at hdata
      exact absurd (List.head_eq_of_cons_eq hdata) (by decide)
  · intro hs
    rw [write_to_filehandle_snd, hs]
    apply List.map_congr_left
    intro r hr
    show ({ r with recipe := _ } : DMRule) = _
    rw [show cmdPfx SchedulingEngine.none = "" from rfl]
    simp

/-! ## Output-length accounting for the non-idempotence claim -/

theorem outputText_length (l : List String) :
    (outputText l).length = (l.map String.length).sum := by
  induction l with
  | nil => rfl
  | cons x rest ih =>
    cases rest with
    | nil => simp [outputText, joinSep]
    | cons y ys =>
      show (x ++ "" ++ joinSep "" (y :: ys)).length = _
      rw [String.length_append, String.length_append,
        show joinSep "" (y :: ys) = outputText (y :: ys) from rfl, ih]
      have h0 : ("" : String).length = 0 := rfl
      simp only [List.map_cons, List.sum_cons]
      omega

theorem tabLine_length (c : String) : (tabLine c).length = c.length + 2 := by
  rw [tabLine, String.length_append, String.length_append]
  have h1 : ("\t" : String).length = 1 := rfl
  have h2 : ("\n" : String).length = 1 := rfl
  omega

theorem sum_len_map_tabLine (l : List String) :
    ((l.map tabLine).map String.length).sum
      = 2 * l.length + (l.map String.length).sum := by
  induction l with
  | nil => rfl
  | cons c cs ih =>
    simp only [List.map_cons, List.sum_cons, tabLine_length, ih, List.length_cons]
    omega

theorem sum_len_le_map_append_left (p : String) (l : List String) :
    (l.map String.length).sum
      ≤ ((l.map (fun c => p ++ c)).map String.length).sum := by
  induction l with
  | nil => exact Nat.le_refl _
  | cons c cs ih =>
    simp only [List.map_cons, List.sum_cons, String.length_append]
    omega

theorem writeRule_sum_lt (absDirname : String → String)
    (sched : SchedulingEngine) (r : DMRule) :
    ((writeRule absDirname sched r).1.map String.length).sum
      < ((writeRule absDirname sched
            ((writeRule absDirname sched r).2)).1.map String.length).sum := by
  have h1 : (writeRule absDirname sched r).1
      = (r.target ++ ": " ++ joinSep " " r.deps ++ "\n")
        :: (guardCmd (absDirname r.target)
              :: r.recipe.map (fun c => cmdPfx sched ++ c)).map tabLine := rfl
  have h3 : (writeRule absDirname sched ((writeRule absDirname sched r).2)).1
      = (r.target ++ ": " ++ joinSep " " r.deps ++ "\n")
        :: (guardCmd (absDirname r.target)
              :: (guardCmd (absDirname r.target)
                    :: r.recipe.map (fun c => cmdPfx sched ++ c)).map
                  (fun c => cmdPfx sched ++ c)).map tabLine := rfl
  rw [h1, h3]
  simp only [List.map_cons, List.sum_cons, sum_len_map_tabLine, tabLine_length,
    List.length_cons, List.length_map]
  have hS := sum_len_le_map_append_left (cmdPfx sched)
    (guardCmd (absDirname r.target) :: r.recipe.map (fun c => cmdPfx sched ++ c))
  simp only [List.map_cons, List.sum_cons] at hS
  omega

theorem writeRules_sum_le (absDirname : String → String)
    (sched : SchedulingEngine) (rules : List DMRule) :
    ((writeRules absDirname sched rules).1.map String.length).sum
      ≤ ((writeRules absDirname sched
            ((writeRules absDirname sched rules).2)).1.map String.length).sum := by
  induction rules with
  | nil => exact Nat.le_refl _
  | cons r rs ih =>
    show (((writeRule absDirname sched r).1
          ++ (writeRules absDirname sched rs).1).map String.length).sum
        ≤ (((writeRule absDirname sched ((writeRule absDirname sched r).2)).1
          ++ (writeRules absDirname sched
                ((writeRules absDirname sched rs).2)).1).map String.length).sum
    simp only [List.map_append, List.sum_append]
    exact Nat.add_le_add (Nat.le_of_lt (writeRule_sum_lt absDirname sched r)) ih

theorem writeRules_sum_lt (absDirname : String → String)
    (sched : SchedulingEngine) (rules : List DMRule) (h : rules ≠ []) :
    ((writeRules absDirname sched rules).1.map String.length).sum
      < ((writeRules absDirname sched
            ((writeRules absDirname sched rules).2)).1.map String.length).sum := by
  cases rules with
  | nil => exact absurd rfl h
  | cons r rs =>
    show (((writeRule absDirname sched r).1
          ++ (writeRules absDirname sched rs).1).map String.length).sum
        < (((writeRule absDirname sched ((writeRule absDirname sched r).2)).1
          ++ (writeRules absDirname sched
                ((writeRules absDirname sched rs).2)).1).map String.length).sum
    simp only [List.map_append, List.sum_append]
    exact Nat.add_lt_add_of_lt_of_le (writeRule_sum_lt absDirname sched r)
      (writeRules_sum_le absDirname sched rs)

/-- C10: serialization is not idempotent on a builder holding at least
one rule: a second `write_to_filehandle` call emits different text,
because the first call mutated the stored recipes — after two calls each
rule's recipe holds the directory-guard command twice (the second
occurrence behind the dispatch prefix) and the original commands behind
the dispatch prefix applied twice. -/
theorem serialize_not_idempotent (b : DMBuilder) (absDirname : String → String)
    (h : b.rules ≠ []) :
    outputText ((b.write_to_filehandle absDirname).2.write_to_filehandle
        absDirname).1
      ≠ outputText (b.write_to_filehandle absDirname).1 ∧
    ((b.write_to_filehandle absDirname).2.write_to_filehandle absDirname).2.rules
      = b.rules.map (fun r =>
          ⟨r.target, r.deps,
           guardCmd (absDirname r.target)
             :: (cmdPfx b.scheduler ++ guardCmd (absDirname r.target))
             :: r.recipe.map
                  (fun c => cmdPfx b.scheduler ++ (cmdPfx b.scheduler ++ c))⟩) := by
  have hb1snd : (b.write_to_filehandle absDirname).2
      = { b with rules := (writeRules absDirname b.scheduler b.rules).2 } := rfl
  have hfst2 : ((b.write_to_filehandle absDirname).2.write_to_filehandle
        absDirname).1
      = "SHELL := /bin/bash\n"
          :: (writeRules absDirname b.scheduler
                ((writeRules absDirname b.scheduler b.rules).2)).1
          ++ ["all: " ++ joinSep " " (b.rules.map DMRule.target) ++ "\n",
              ".DELETE_ON_ERROR:\n"] := by
    rw [hb1snd, write_to_filehandle_fst]
    show "SHELL := /bin/bash\n"
        :: (writeRules absDirname b.scheduler
              ((writeRules absDirname b.scheduler b.rules).2)).1
        ++ ["all: " ++ joinSep " "
              (((writeRules absDirname b.scheduler b.rules).2).map DMRule.target)
              ++ "\n", ".DELETE_ON_ERROR:\n"] = _
    rw [writeRules_snd_targets]
  constructor
  · intro heq
    have hlen := congrArg String.length heq
    rw [outputText_length, outputText_length, hfst2,
      write_to_filehandle_fst b absDirname] at hlen
    simp only [List.cons_append, List.map_cons, List.map_append, List.map_nil,
      List.sum_cons, List.sum_append, List.sum_nil] at hlen
    have hlt := writeRules_sum_lt absDirname b.scheduler b.rules h
    omega
  · have hrules1 : (b.write_to_filehandle absDirname).2.rules
        = b.rules.map (fun r =>
            ⟨r.target, r.deps,
             guardCmd (absDirname r.target)
               :: r.recipe.map (fun c => cmdPfx b.scheduler ++ c)⟩) := by
      rw [write_to_filehandle_snd]
    have hrules2 : ((b.write_to_filehandle absDirname).2.write_to_filehandle
          absDirname).2.rules
        = ((b.write_to_filehandle absDirname).2.rules).map (fun r =>
            ⟨r.target, r.deps,
             guardCmd (absDirname r.target)
               :: r.recipe.map (fun c => cmdPfx b.scheduler ++ c)⟩) :=
      congrArg DMBuilder.rules
        (write_to_filehandle_snd ((b.write_to_filehandle absDirname).2) absDirname)
    rw [hrules2, hrules1, List.map_map]
    apply List.map_congr_left
    intro r hr
    simp only [Function.comp]
    rw [List.map_cons, List.map_map]
    rfl

/-- Witness for C10 on a one-rule cluster-scheduled builder. -/
theorem serialize_not_idempotent_witness :
    outputText
        ((DMBuilder.write_to_filehandle
            { rules := [⟨"x", [], ["echo hi"]⟩],
              scheduler := SchedulingEngine.slurm,
              targets := ["x"] } (fun _ => "/d")).2.write_to_filehandle
          (fun _ => "/d")).1
      ≠ outputText
          (DMBuilder.write_to_filehandle
            { rules := [⟨"x", [], ["echo hi"]⟩],
              scheduler := SchedulingEngine.slurm,
              targets := ["x"] } (fun _ => "/d")).1 ∧
    ((DMBuilder.write_to_filehandle
        { rules := [⟨"x", [], ["echo hi"]⟩],
          scheduler := SchedulingEngine.slurm,
          targets := ["x"] } (fun _ => "/d")).2.write_to_filehandle
      (fun _ => "/d")).2.rules
      = [⟨"x", [],
          ["@test -d /d || mkdir -p /d",
           "srun @test -d /d || mkdir -p /d",
           "srun srun echo hi"]⟩] := by
  have H := serialize_not_idempotent
    { rules := [⟨"x", [], ["echo hi"]⟩],
      scheduler := SchedulingEngine.slurm,
      targets := ["x"] } (fun _ => "/d") (by decide)
  exact ⟨H.1, H.2.trans (by decide)⟩

/-- Witness for C4: under slurm the serialized non-guard command carries
the token; under `none` the serialized recipe is the guard followed by
the unchanged original command. -/
theorem scheduler_dispatch_token_policy_witness :
    (∃ c0, "srun echo hi" = "srun " ++ c0) ∧
    (DMBuilder.write_to_filehandle
        { rules := [⟨"x", [], ["echo hi"]⟩],
          scheduler := SchedulingEngine.none,
          targets := ["x"] } (fun _ => "/d")).2.rules
      = [⟨"x", [], ["@test -d /d || mkdir -p /d", "echo hi"]⟩] := by
  constructor
  · exact ((scheduler_dispatch_token_policy
        { rules := [⟨"x", [], ["echo hi"]⟩],
          scheduler := SchedulingEngine.slurm,
          targets := ["x"] } (fun _ => "/d")).1 rfl
        ⟨"x", [], ["@test -d /d || mkdir -p /d", "srun echo hi"]⟩
        (by decide)).1 "srun echo hi" (by decide)
  · exact ((scheduler_dispatch_token_policy
        { rules := [⟨"x", [], ["echo hi"]⟩],
          scheduler := SchedulingEngine.none,
          targets := ["x"] } (fun _ => "/d")).2 rfl).trans (by decide)

/-- C7: constructing the orchestrator with an external parsed-arguments
object copies exactly the recognized fields `run`, `no_cleanup` and
`jobs` when present, sets the builder's scheduling backend by
enum-member name when a `scheduler` field is present, leaves every
absent field at its default (`run` false i.e. dry-run, `keep_going`
false, `jobs` 1, `no_cleanup` false, scheduler `none`), and ignores
unrecognized fields: changing them alters nothing but the stored
arguments object itself. -/
theorem handle_args_policy (a : ArgsObject)
    (hs : ∀ n, a.scheduler = some n → (schedulingEngineOfName n).isSome = true) :
    (DistributedMake.init (some a)).2 = Option.none ∧
    (DistributedMake.init (some a)).1.run = a.run.getD false ∧
    (DistributedMake.init (some a)).1.no_cleanup = a.no_cleanup.getD false ∧
    (DistributedMake.init (some a)).1.jobs = a.jobs.getD 1 ∧
    (DistributedMake.init (some a)).1.keep_going = false ∧
    (DistributedMake.init (some a)).1.question = "" ∧
    (DistributedMake.init (some a)).1.touch = "" ∧
    (DistributedMake.init (some a)).1.debug = "" ∧
    (DistributedMake.init (some a)).1.dm_builder.scheduler
      = (match a.scheduler with
         | Option.none => SchedulingEngine.none
         | some n => (schedulingEngineOfName n).getD SchedulingEngine.none) ∧
    (∀ ex, (DistributedMake.init (some { a with extra := ex })).1
        = { (DistributedMake.init (some a)).1 with
              args_object := some { a with extra := ex } }) := by
  obtain ⟨r, nc, j, sc, ex⟩ := a
  cases sc with
  | none =>
    cases r <;> cases nc <;> cases j <;>
      simp [DistributedMake.init, DistributedMake.handle_args_object]
  | some n =>
    obtain ⟨e, he⟩ := Option.isSome_iff_exists.mp (hs n rfl)
    cases r <;> cases nc <;> cases j <;>
      simp [DistributedMake.init, DistributedMake.handle_args_object, he]

/-- Witness for C7 at a concrete arguments object carrying an
unrecognized field. -/
theorem handle_args_policy_witness :
    (DistributedMake.init (some { run := some true, jobs := some 7, scheduler := some "slurm", extra := [("zzz", "1")] })).2
      = Option.none ∧
    (DistributedMake.init (some { run := some true, jobs := some 7, scheduler := some "slurm", extra := [("zzz", "1")] })).1.run = true ∧
    (DistributedMake.init (some { run := some true, jobs := some 7, scheduler := some "slurm", extra := [("zzz", "1")] })).1.jobs = 7 ∧
    (DistributedMake.init (some { run := some true, jobs := some 7, scheduler := some "slurm", extra := [("zzz", "1")] })).1.no_cleanup
      = false ∧
    (DistributedMake.init (some { run := some true, jobs := some 7, scheduler := some "slurm", extra := [("zzz", "1")] })).1.dm_builder.scheduler
      = SchedulingEngine.slurm := by
  have H := handle_args_policy
    { run := some true, jobs := some 7, scheduler := some "slurm", extra := [("zzz", "1")] }
    (by
      intro n hn
      injection hn with h2
      rw [← h2]
      rfl)
  exact ⟨H.1, H.2.1, H.2.2.2.1, H.2.2.1, H.2.2.2.2.2.2.2.2.1⟩

/-! ## The make command line: flag policy -/

theorem ne_of_char2 {s t : String} {a b : Char}
    (hs : char2 s = some a) (ht : char2 t = some b) (hab : a ≠ b) : s ≠ t := by
  intro he
  rw [he, ht] at hs
  exact hab (Option.some.inj hs).symm

theorem char2_append {s : String} (v : String) {a b : Char} {r : List Char}
    (hs : s.data = a :: b :: r) : char2 (s ++ v) = some b := by
  have h : (s ++ v).data = a :: b :: (r ++ v.data) := by
    rw [String.data_append, hs]
    rfl
  rw [char2, h]

theorem mem_build_make_command (m : DistributedMake) (p s : String) :
    s ∈ m.build_make_command p ↔
      s = "make" ∨ (m.run = false ∧ s = "-n") ∨ (m.keep_going = true ∧ s = "-k")
        ∨ (m.question ≠ "" ∧ s = "-q " ++ m.question)
        ∨ (m.touch ≠ "" ∧ s = "-t " ++ m.touch)
        ∨ (m.debug ≠ "" ∧ s = "-d " ++ m.debug)
        ∨ s = "-j " ++ toString m.jobs ∨ s = "-f " ++ p ∨ s = "all" := by
  rw [DistributedMake.build_make_command]
  cases hr : m.run <;> cases hk : m.keep_going <;>
    by_cases hq : m.question = "" <;> by_cases htc : m.touch = "" <;>
    by_cases hd : m.debug = "" <;>
    simp [hq, htc, hd, List.mem_append, List.mem_cons]

/-- C2: the constructed command line is a pure function of the
configuration and the makefile path, of the form
`make [-n] [-k] [-q v] [-t v] [-d v] -j jobs -f path all`: it starts
with the tool name and ends with the `all` goal, contains the dry-run
flag exactly when `run` is false, `-k` exactly when `keep_going` is
true, a `-q`/`-t`/`-d` flag with its value exactly when the
corresponding option is set, and always carries the parallelism and
file-selection flags. -/
theorem build_make_command_policy (m : DistributedMake) (p : String) :
    (m.build_make_command p).head? = some "make" ∧
    (m.build_make_command p).getLast? = some "all" ∧
    ("-n" ∈ m.build_make_command p ↔ m.run = false) ∧
    ("-k" ∈ m.build_make_command p ↔ m.keep_going = true) ∧
    ((∃ v, "-q " ++ v ∈ m.build_make_command p) ↔ m.question ≠ "") ∧
    ((∃ v, "-t " ++ v ∈ m.build_make_command p) ↔ m.touch ≠ "") ∧
    ((∃ v, "-d " ++ v ∈ m.build_make_command p) ↔ m.debug ≠ "") ∧
    "-j " ++ toString m.jobs ∈ m.build_make_command p ∧
    "-f " ++ p ∈ m.build_make_command p := by
  refine ⟨rfl, ?_, ?_, ?_, ?_, ?_, ?_, ?_, ?_⟩
  · rw [DistributedMake.build_make_command, List.getLast?_append]
    rfl
  · constructor
    · intro hmem
      rcases (mem_build_make_command m p _).mp hmem with
        h | ⟨hr, h⟩ | ⟨hk, h⟩ | ⟨hq, h⟩ | ⟨htc, h⟩ | ⟨hd, h⟩ | h | h | h
      · exact absurd h (by decide)
      · exact hr
      · exact absurd h (by decide)
      · exact absurd h (ne_of_char2 rfl (char2_append m.question rfl) (by decide))
      · exact absurd h (ne_of_char2 rfl (char2_append m.touch rfl) (by decide))
      · exact absurd h (ne_of_char2 rfl (char2_append m.debug rfl) (by decide))
      · exact absurd h
          (ne_of_char2 rfl (char2_append (toString m.jobs) rfl) (by decide))
      · exact absurd h (ne_of_char2 rfl (char2_append p rfl) (by decide))
      · exact absurd h (by decide)
    · intro hr
      exact (mem_build_make_command m p _).mpr (Or.inr (Or.inl ⟨hr, rfl⟩))
  · constructor
    · intro hmem
      rcases (mem_build_make_command m p _).mp hmem with
        h | ⟨hr, h⟩ | ⟨hk, h⟩ | ⟨hq, h⟩ | ⟨htc, h⟩ | ⟨hd, h⟩ | h | h | h
      · exact absurd h (by decide)
      · exact absurd h (by decide)
      · exact hk
      · exact absurd h (ne_of_char2 rfl (char2_append m.question rfl) (by decide))
      · exact absurd h (ne_of_char2 rfl (char2_append m.touch rfl) (by decide))
      · exact absurd h (ne_of_char2 rfl (char2_append m.debug rfl) (by decide))
      · exact absurd h
          (ne_of_char2 rfl (char2_append (toString m.jobs) rfl) (by decide))
      · exact absurd h (ne_of_char2 rfl (char2_append p rfl) (by decide))
      · exact absurd h (by decide)
    · intro hk
      exact (mem_build_make_command m p _).mpr (Or.inr (Or.inr (Or.inl ⟨hk, rfl⟩)))
  · constructor
    · rintro ⟨v, hv⟩
      rcases (mem_build_make_command m p _).mp hv with
        h | ⟨hr, h⟩ | ⟨hk, h⟩ | ⟨hq, h⟩ | ⟨htc, h⟩ | ⟨hd, h⟩ | h | h | h
      · exact absurd h (ne_of_char2 (char2_append v rfl) rfl (by decide))
      · exact absurd h (ne_of_char2 (char2_append v rfl) rfl (by decide))
      · exact absurd h (ne_of_char2 (char2_append v rfl) rfl (by decide))
      · exact hq
      · exact absurd h
          (ne_of_char2 (char2_append v rfl) (char2_append m.touch rfl) (by decide))
      · exact absurd h
          (ne_of_char2 (char2_append v rfl) (char2_append m.debug rfl) (by decide))
      · exact absurd h (ne_of_char2 (char2_append v rfl)
          (char2_append (toString m.jobs) rfl) (by decide))
      · exact absurd h
          (ne_of_char2 (char2_append v rfl) (char2_append p rfl) (by decide))
      · exact absurd h (ne_of_char2 (char2_append v rfl) rfl (by decide))
    · intro hq
      exact ⟨m.question, (mem_build_make_command m p _).mpr
        (Or.inr (Or.inr (Or.inr (Or.inl ⟨hq, rfl⟩))))⟩
  · constructor
    · rintro ⟨v, hv⟩
      rcases (mem_build_make_command m p _).mp hv with
        h | ⟨hr, h⟩ | ⟨hk, h⟩ | ⟨hq, h⟩ | ⟨htc, h⟩ | ⟨hd, h⟩ | h | h | h
      · exact absurd h (ne_of_char2 (char2_append v rfl) rfl (by decide))
      · exact absurd h (ne_of_char2 (char2_append v rfl) rfl (by decide))
      · exact absurd h (ne_of_char2 (char2_append v rfl) rfl (by decide))
      · exact absurd h (ne_of_char2 (char2_append v rfl)
          (char2_append m.question rfl) (by decide))
      · exact htc
      · exact absurd h
          (ne_of_char2 (char2_append v rfl) (char2_append m.debug rfl) (by decide))
      · exact absurd h (ne_of_char2 (char2_append v rfl)
          (char2_append (toString m.jobs) rfl) (by decide))
      · exact absurd h
          (ne_of_char2 (char2_append v rfl) (char2_append p rfl) (by decide))
      · exact absurd h (ne_of_char2 (char2_append v rfl) rfl (by decide))
    · intro htc
      exact ⟨m.touch, (mem_build_make_command m p _).mpr
        (Or.inr (Or.inr (Or.inr (Or.inr (Or.inl ⟨htc, rfl⟩)))))⟩
  · constructor
    · rintro ⟨v, hv⟩
      rcases (mem_build_make_command m p _).mp hv with
        h | ⟨hr, h⟩ | ⟨hk, h⟩ | ⟨hq, h⟩ | ⟨htc, h⟩ | ⟨hd, h⟩ | h | h | h
      · exact absurd h (ne_of_char2 (char2_append v rfl) rfl (by decide))
      · exact absurd h (ne_of_char2 (char2_append v rfl) rfl (by decide))
      · exact absurd h (ne_of_char2 (char2_append v rfl) rfl (by decide))
      · exact absurd h (ne_of_char2 (char2_append v rfl)
          (char2_append m.question rfl) (by decide))
      · exact absurd h
          (ne_of_char2 (char2_append v rfl) (char2_append m.touch rfl) (by decide))
      · exact hd
      · exact absurd h (ne_of_char2 (char2_append v rfl)
          (char2_append (toString m.jobs) rfl) (by decide))
      · exact absurd h
          (ne_of_char2 (char2_append v rfl) (char2_append p rfl) (by decide))
      · exact absurd h (ne_of_char2 (char2_append v rfl) rfl (by decide))
    · intro hd
      exact ⟨m.debug, (mem_build_make_command m p _).mpr
        (Or.inr (Or.inr (Or.inr (Or.inr (Or.inr (Or.inl ⟨hd, rfl⟩))))))⟩
  · exact (mem_build_make_command m p _).mpr
      (Or.inr (Or.inr (Or.inr (Or.inr (Or.inr (Or.inr (Or.inl rfl)))))))
  · exact (mem_build_make_command m p _).mpr
      (Or.inr (Or.inr (Or.inr (Or.inr (Or.inr (Or.inr (Or.inr (Or.inl rfl))))))))

/-- Witness for C2 at the spec's two example configurations:
`{run: false, jobs: 4}` yields `-n` and `-j 4` and no `-k`/`-q`/`-t`/`-d`
tokens; `{run: true, keep_going: true, jobs: 8}` yields `-k` and `-j 8`
and no `-n`. -/
theorem build_make_command_policy_witness :
    "-n" ∈ ({ run := false, jobs := 4 } : DistributedMake).build_make_command "mf" ∧
    "-j 4" ∈ ({ run := false, jobs := 4 } : DistributedMake).build_make_command "mf" ∧
    "-k" ∉ ({ run := false, jobs := 4 } : DistributedMake).build_make_command "mf" ∧
    (¬ ∃ v, "-q " ++ v ∈
      ({ run := false, jobs := 4 } : DistributedMake).build_make_command "mf") ∧
    (¬ ∃ v, "-t " ++ v ∈
      ({ run := false, jobs := 4 } : DistributedMake).build_make_command "mf") ∧
    (¬ ∃ v, "-d " ++ v ∈
      ({ run := false, jobs := 4 } : DistributedMake).build_make_command "mf") ∧
    "-k" ∈ ({ run := true, keep_going := true, jobs := 8 } : DistributedMake).build_make_command "mf" ∧
    "-j 8" ∈ ({ run := true, keep_going := true, jobs := 8 } : DistributedMake).build_make_command "mf" ∧
    "-n" ∉ ({ run := true, keep_going := true, jobs := 8 } : DistributedMake).build_make_command "mf" := by
  have HA := build_make_command_policy { run := false, jobs := 4 } "mf"
  have HB := build_make_command_policy
    { run := true, keep_going := true, jobs := 8 } "mf"
  refine ⟨HA.2.2.1.mpr rfl, HA.2.2.2.2.2.2.2.1, ?_, ?_, ?_, ?_,
    HB.2.2.2.1.mpr rfl, HB.2.2.2.2.2.2.2.1, ?_⟩
  · intro hmem
    exact absurd (HA.2.2.2.1.mp hmem) (by decide)
  · intro hex
    exact absurd (HA.2.2.2.2.1.mp hex) (by decide)
  · intro hex
    exact absurd (HA.2.2.2.2.2.1.mp hex) (by decide)
  · intro hex
    exact absurd (HA.2.2.2.2.2.2.1.mp hex) (by decide)
  · intro hmem
    exact absurd (HB.2.2.1.mp hmem) (by decide)
